import Mathlib

/-!
Shallow embedding of the `movers` package (nycmonkey/movers): calendar-date
validation (`Date.Validate`, `NewDate`), source-URL derivation (`dataURL`),
the HTML table parser (`parseTable`, `trToStock`, `filterNonNumeric`,
`nameAndSymbolPattern`) and the in-memory fetch cache (`cache.Get`).

Modelling conventions:
* Go machine integers are modelled as `Int` (no arithmetic here ever
  overflows except where the source itself checks a range, which is
  modelled explicitly, e.g. the 64-bit range check of `strconv.Atoi`).
* Go `float64` values produced by `strconv.ParseFloat` are modelled as the
  exact decimal values in `ℚ`; every statement below concerns decimal
  identities and signs only, never binary rounding.
* The wall-clock year `time.Now().Year()` read inside `Date.Validate` is
  passed explicitly as a parameter `cy` (the specification itself demands
  an injectable clock).
* The HTML document handed to `parseTable` is modelled as an already
  parsed node tree (`Node`); `goquery.NewDocumentFromReader` fails only on
  reader I/O errors, which cannot occur on an in-memory body.
* The sequential state of the cache map is passed explicitly; the per-key
  mutex of the Go code serialises all callers of the same key, so
  sequential composition of `cacheGet` calls is exactly the behaviour any
  interleaving of same-key callers observes.
-/

deriving instance DecidableEq for Except

namespace Movers

/-! ## Date validation -/

/-- Errors produced by `Date.Validate`: `invalid year`, `invalid day` and
the weekend rejection.  In the specification's taxonomy `invalidYear` and
`invalidDay` are the InvalidDate class and `weekend` is
WeekendUnavailable. -/
inductive VErr
  | invalidYear
  | invalidDay
  | weekend
deriving DecidableEq, Repr

/-- The Go `Date` struct `{Year int; Month time.Month; Day int}`
(`time.Month` is an integer type, so all three components are plain
integers). -/
structure Date where
  year : Int
  month : Int
  day : Int
deriving DecidableEq, Repr

/-- Month normalisation performed by Go `time.Date`:
`m := int(month) - 1; year += m / 12; m %= 12; if m < 0 { m += 12; year-- }`.
Go `/` and `%` truncate toward zero, i.e. `Int.tdiv` / `Int.tmod`.
Returns the normalised `(year, month)` with month in `[1, 12]`. -/
def goNormYM (y m : Int) : Int × Int :=
  let m0 := m - 1
  let y1 := y + m0.tdiv 12
  let m1 := m0.tmod 12
  if m1 < 0 then (y1 - 1, m1 + 13) else (y1, m1 + 1)

/-- Day number of a proleptic-Gregorian civil date counted from
`0000-03-01`, for a month already normalised to `[1, 12]`.  The day
component may be any integer: Go `time.Date` simply adds `day - 1` days to
the first of the month, which is exactly what the final `+ d - 1` does. -/
def daysFromCivil (y m d : Int) : Int :=
  let y1 := if m ≤ 2 then y - 1 else y
  let mp := if m ≤ 2 then m + 9 else m - 3
  365 * y1 + y1.ediv 4 - y1.ediv 100 + y1.ediv 400 + (153 * mp + 2).ediv 5 + d - 1

/-- Weekday (Go numbering: Sunday = 0 … Saturday = 6) of the date produced
by Go `time.Date(year, month, day, …)` after normalisation. -/
def goWeekday (d : Date) : Int :=
  let ym := goNormYM d.year d.month
  (daysFromCivil ym.1 ym.2 d.day + 3).emod 7

/-- `(*Date).Validate`: rejects a year outside `[2010, cy]`
(`invalid year`), then a day outside `[1, 31]` (`invalid day`), then
Saturday/Sunday of the `time.Date`-normalised date (`Movers data is not
available on weekends`).  `cy` is the wall-clock year
`time.Now().Year()`. -/
def Date.Validate (cy : Int) (d : Date) : Option VErr :=
  if d.year > cy ∨ d.year < 2010 then some .invalidYear
  else if d.day < 1 ∨ d.day > 31 then some .invalidDay
  else if goWeekday d = 6 ∨ goWeekday d = 0 then some .weekend
  else none

/-- Go `NewDate`: builds the record and validates it.  The Go version
returns the pair `(d, err)`; callers use `d` only when `err` is nil, so it
is modelled as `Except`. -/
def NewDate (cy y m d : Int) : Except VErr Date :=
  match Date.Validate cy ⟨y, m, d⟩ with
  | some e => .error e
  | none => .ok ⟨y, m, d⟩

/-- Gregorian leap-year predicate (used only to state, in the
specification's words, which `(y, m, d)` triples are real calendar
dates). -/
def isLeapYear (y : Int) : Bool :=
  y.emod 4 == 0 && (y.emod 100 != 0 || y.emod 400 == 0)

/-- Number of days of month `m` of year `y` in the Gregorian calendar
(spec-side notion used to state the claims about real dates). -/
def daysInMonth (y m : Int) : Int :=
  if m = 2 then (if isLeapYear y then 29 else 28)
  else if m = 4 ∨ m = 6 ∨ m = 9 ∨ m = 11 then 30
  else 31

/-- A `(y, m, d)` triple denotes a real Gregorian calendar date. -/
def isRealDate (y m d : Int) : Prop :=
  1 ≤ m ∧ m ≤ 12 ∧ 1 ≤ d ∧ d ≤ daysInMonth y m

instance (y m d : Int) : Decidable (isRealDate y m d) := by
  unfold isRealDate; infer_instance

/-! ## Source locator -/

/-- The two published lists.  In the Go source each variant literally *is*
its URL template string; the template of each variant is split below into
the part before the three date verbs (`urlHead`) and the part after them
(`urlTail`). -/
inductive MoverList
  | usCompositeGainers
  | usCompositeLosers
deriving DecidableEq, Repr

/-- Template text before `%d%02d%02d` for each list. -/
def urlHead : MoverList → String
  | .usCompositeGainers => "http://www.wsj.com/mdc/public/page/2_3021-gaincomp-gainer-"
  | .usCompositeLosers => "http://www.wsj.com/mdc/public/page/2_3021-losecomp-loser-"

/-- Template text after `%d%02d%02d` (identical for both lists). -/
def urlTail : String := ".html?mod=mdc_pastcalendar"

/-- The Go `fmt` verb `%02d`: left-pad the decimal rendering with zeros to
width 2 (a negative number of one digit already has width 2). -/
def pad2 (n : Int) : String :=
  if 0 ≤ n ∧ n < 10 then "0" ++ toString n else toString n

/-- `dataURL`: re-validate the date, then
`fmt.Sprintf(string(list), d.Year, int(d.Month), d.Day)` against the
template `…-%d%02d%02d.html?…`. -/
def dataURL (cy : Int) (list : MoverList) (d : Date) : Except VErr String :=
  match Date.Validate cy d with
  | some e => .error e
  | none =>
    .ok (urlHead list ++ toString d.year ++ pad2 d.month ++ pad2 d.day ++ urlTail)

/-! ## HTML document model and the goquery selector -/

mutual
/-- A parsed HTML node: an element with tag name, class list and children,
or a text node. -/
inductive Node
  | text (s : String)
  | elem (tag : String) (classes : List String) (children : NodeList)
/-- Children lists, as a mutual inductive so that structural recursion and
induction over the tree are direct. -/
inductive NodeList
  | nil
  | cons (n : Node) (l : NodeList)
end

/-- Builds a children list from a Lean list literal. -/
def NodeList.ofList : List Node → NodeList
  | [] => .nil
  | n :: l => .cons n (NodeList.ofList l)

mutual
/-- Text content of a node: concatenation of all text descendants in
document order (goquery `Text()`). -/
def nodeText : Node → String
  | .text s => s
  | .elem _ _ cs => nodeTextL cs
/-- Text content of a children list. -/
def nodeTextL : NodeList → String
  | .nil => ""
  | .cons n l => nodeText n ++ nodeTextL l
end

mutual
/-- The selector `table.mdcTable tbody tr` evaluated over a subtree:
`inTable` records whether some strict ancestor is a `table` element with
class `mdcTable`, `inTbody` whether some strict ancestor is a `tbody`
lying under such a table.  Matching `tr` nodes are produced in document
(pre-)order, exactly as goquery `Find` returns them. -/
def collectRows (inTable inTbody : Bool) : Node → List Node
  | .text _ => []
  | .elem tag classes cs =>
    let inTable1 := inTable || (tag == "table" && classes.contains "mdcTable")
    let inTbody1 := inTbody || (inTable && tag == "tbody")
    (if inTbody && tag == "tr" then [Node.elem tag classes cs] else []) ++
      collectRowsL inTable1 inTbody1 cs
/-- `collectRows` over a children list. -/
def collectRowsL (inTable inTbody : Bool) : NodeList → List Node
  | .nil => []
  | .cons n l => collectRows inTable inTbody n ++ collectRowsL inTable inTbody l
end

/-- `doc.Find("table.mdcTable tbody tr")` with `root` the document root. -/
def findRows (root : Node) : List Node := collectRows false false root

mutual
/-- Strict descendants of a node in document (pre-)order. -/
def descendants : Node → List Node
  | .text _ => []
  | .elem _ _ cs => descendantsL cs
/-- Descendants reachable from a children list, each child followed by its
own descendants. -/
def descendantsL : NodeList → List Node
  | .nil => []
  | .cons n l => (n :: descendants n) ++ descendantsL l
end

/-- Does a node render as a `td` element? -/
def isTd : Node → Bool
  | .elem tag _ _ => tag == "td"
  | .text _ => false

/-- `sel.Find("td")` on a row node: all `td` descendants in document
order. -/
def findTds (row : Node) : List Node := (descendants row).filter isTd

mutual
/-- Whether the subtree contains a `table` element with class `mdcTable`
(the structural marker of the parser). -/
def hasMarker : Node → Bool
  | .text _ => false
  | .elem tag classes cs =>
    (tag == "table" && classes.contains "mdcTable") || hasMarkerL cs
/-- `hasMarker` over a children list. -/
def hasMarkerL : NodeList → Bool
  | .nil => false
  | .cons n l => hasMarker n || hasMarkerL l
end

/-! ## Numeric normalisation and parsing -/

/-- Runes kept by `filterNonNumeric` (`transform.RemoveFunc`): `-`, `.`
and numeric runes.  `unicode.IsNumber` (Unicode category N) is modelled on
its ASCII fragment `0-9`; every document appearing in a theorem below is
ASCII, where the two coincide. -/
def keepRune (c : Char) : Bool := c == '-' || c == '.' || c.isDigit

/-- The `filterNonNumeric` transformer applied to a whole string. -/
def filterNonNumeric (s : String) : String :=
  String.mk (s.toList.filter keepRune)

/-- Value of a list of decimal digit characters. -/
def digitsToNat (ds : List Char) : Nat :=
  ds.foldl (fun a c => 10 * a + (c.toNat - 48)) 0

/-- Unsigned decimal number accepted by `strconv.ParseFloat` on the
alphabet reachable after `filterNonNumeric` (digits and at most one dot;
exponents, infinities, hex forms and underscores all contain runes the
filter removes): `digits [. digits]` or `. digits`, at least one digit in
total.  The exact decimal value `intPart.frac` is returned in `ℚ`, built
with `mkRat` so that it evaluates by kernel reduction:
`mkRat (i * 10 ^ k + f) (10 ^ k)` is exactly `i + f / 10 ^ k`. -/
def parseUnsignedDec (s : List Char) : Option ℚ :=
  let intPart := s.takeWhile Char.isDigit
  let rest := s.dropWhile Char.isDigit
  match rest with
  | [] => if intPart.isEmpty then none else some (mkRat (digitsToNat intPart) 1)
  | '.' :: frac =>
    if (intPart.isEmpty && frac.isEmpty) || !frac.all Char.isDigit then none
    else some (mkRat (digitsToNat intPart * 10 ^ frac.length + digitsToNat frac)
      (10 ^ frac.length))
  | _ => none

/-- `strconv.ParseFloat(s, 64)`, modelled exactly on the post-filter
alphabet: an optional sign followed by an unsigned decimal. -/
def goParseFloat (s : String) : Option ℚ :=
  match s.toList with
  | '-' :: rest => (parseUnsignedDec rest).map (fun q => -q)
  | '+' :: rest => parseUnsignedDec rest
  | l => parseUnsignedDec l

/-- Digit run accepted by `strconv.Atoi` after the optional sign. -/
def goAtoiMag (s : List Char) : Option Nat :=
  if s.isEmpty || !s.all Char.isDigit then none else some (digitsToNat s)

/-- `strconv.Atoi`: optional sign, ASCII digits, 64-bit `int` range. -/
def goAtoi (s : String) : Option Int :=
  match s.toList with
  | '-' :: rest => (goAtoiMag rest).bind fun n =>
      if n ≤ 2 ^ 63 then some (-(n : Int)) else none
  | '+' :: rest => (goAtoiMag rest).bind fun n =>
      if n ≤ 2 ^ 63 - 1 then some (n : Int) else none
  | l => (goAtoiMag l).bind fun n =>
      if n ≤ 2 ^ 63 - 1 then some (n : Int) else none

/-! ## The name/ticker regular expression -/

/-- Character class of `.` in Go regexp (no `s` flag): any rune except
newline. -/
def dotChar (c : Char) : Bool := c != '\n'

/-- Go regexp `\s`, i.e. the class `[\t\n\f\r ]`. -/
def spaceChar (c : Char) : Bool :=
  c == ' ' || c == '\t' || c == '\n' || c == '\x0c' || c == '\r'

/-- Whether position `i` of `t` holds a `\s` character. -/
def isSpaceAt (t : List Char) (i : Nat) : Bool :=
  match t.get? i with
  | some c => spaceChar c
  | none => false

/-- Greedy match of the tail `(.+)\)` against a prefix of `u`: the longest
nonempty newline-free run followed immediately by a closing
parenthesis. -/
def grpTwo (u : List Char) : Option (List Char) :=
  (List.range u.length).reverse.findSome? fun b =>
    if 1 ≤ b ∧ (u.take b).all dotChar = true ∧ u.get? b = some ')' then
      some (u.take b)
    else none

/-- Backtracking-priority match of `(.+)\s\((.+)\)` at the start of `t`:
the first group is as long as possible among complete matches, then the
second group is as long as possible — Go regexp (leftmost-first, greedy)
submatch semantics for this pattern. -/
def matchAt (t : List Char) : Option (List Char × List Char) :=
  (List.range t.length).reverse.findSome? fun a =>
    if 1 ≤ a ∧ (t.take a).all dotChar = true ∧ isSpaceAt t a = true ∧
        t.get? (a + 1) = some '(' then
      (grpTwo (t.drop (a + 2))).map fun g2 => (t.take a, g2)
    else none

/-- `nameAndSymbolPattern.FindStringSubmatch` reduced to its two captured
groups: the leftmost start position wins, then the priority order of
`matchAt`.  Returns `none` exactly when `FindStringSubmatch` returns `nil`
(in which case the Go code sees a slice of length 0, not 3, and fails). -/
def nameAndSymbolPattern (s : String) : Option (String × String) :=
  (List.range s.toList.length).findSome? fun i =>
    (matchAt (s.toList.drop i)).map fun g => (String.mk g.1, String.mk g.2)

/-! ## Row and table parsing -/

/-- A stock record (`Stock`), with `float64` fields modelled in `ℚ`. -/
structure Stock where
  ticker : String
  name : String
  price : ℚ
  pctChange : ℚ
  volume : Int
deriving DecidableEq, Repr

/-- Row-level parse failures of `trToStock`, in the order the source
checks them. -/
inductive RowErr
  | columnCount (n : Nat)
  | nameTicker
  | numVolume
  | numPrice
  | numPct
deriving DecidableEq, Repr

/-- Cell texts of a row as built inside `trToStock`:
`sel.Find("td").Map(…)` keeps the raw text at index 1 and the
`filterNonNumeric`-stripped text at every other index. -/
def extractCells (row : Node) : List String :=
  (findTds row).mapIdx fun i td =>
    if i = 1 then nodeText td else filterNonNumeric (nodeText td)

/-- `trToStock` after cell extraction: exactly 6 cells, the
`name (ticker)` pattern on cell 1, then `Atoi` volume (cell 5),
`ParseFloat` price (cell 2) and `ParseFloat` percent change (cell 4), in
the source's order. -/
def trToStock (data : List String) : Except RowErr Stock :=
  match data with
  | [_c0, c1, c2, _c3, c4, c5] =>
    match nameAndSymbolPattern c1 with
    | none => .error .nameTicker
    | some (nm, tk) =>
      match goAtoi c5 with
      | none => .error .numVolume
      | some vol =>
        match goParseFloat c2 with
        | none => .error .numPrice
        | some pr =>
          match goParseFloat c4 with
          | none => .error .numPct
          | some pc => .ok ⟨tk, nm, pr, pc, vol⟩
  | _ => .error (.columnCount data.length)

/-- The `EachWithBreak` loop of `parseTable`: process rows in order,
append each parsed stock, stop at the first failing row.  The pair
mirrors the Go named return values `(results, err)`: stocks appended
before a failure stay in the returned slice. -/
def parseRows : List (List String) → List Stock × Option RowErr
  | [] => ([], none)
  | r :: rs =>
    match trToStock r with
    | .error e => ([], some e)
    | .ok s =>
      let rest := parseRows rs
      (s :: rest.1, rest.2)

/-- Outcome of `parseTable`.  `panicked` models the Go runtime panic of
`Slice(1, goquery.ToEnd)` when the selection is empty (`s.Nodes[1:0]` is a
slice-bounds violation); `result` carries the Go pair `(results, err)`. -/
inductive ParseOutcome
  | panicked
  | result (stocks : List Stock) (err : Option RowErr)
deriving DecidableEq, Repr

/-- `parseTable`: select `table.mdcTable tbody tr`, drop the header row
(panicking when the selection is empty, as `Slice(1, ToEnd)` does), then
run the row loop. -/
def parseTable (root : Node) : ParseOutcome :=
  let rows := findRows root
  if rows.isEmpty then .panicked
  else
    let pr := parseRows ((rows.drop 1).map extractCells)
    .result pr.1 pr.2

/-! ## The fetch cache -/

/-- Result of `netClient.Get(addr)`: a transport error, or a response with
a status code and an (already parsed) HTML body. -/
inductive FetchResult
  | netErr
  | resp (status : Nat) (body : Node)

/-- The cache map `map[string]*cached`, with each entry reduced to its
`data` slice (the mutexes serialise callers and carry no data). -/
abbrev CacheState := List (String × List Stock)

/-- Errors surfaced by `cache.Get`. -/
inductive GetErr
  | invalidDate (e : VErr)
  | network
  | badStatus (code : Nat)
  | row (e : RowErr)
deriving DecidableEq, Repr

/-- Observable outcome of one `cache.Get` call: the Go pair
`(results, err)`, or the propagated parser panic. -/
inductive GetOutcome
  | panicked
  | ok (results : List Stock) (err : Option GetErr)
deriving DecidableEq, Repr

/-- One sequential step of `(*cache).Get(list, d)`, faithful to the
source: validate and derive the URL (returning before touching the map on
failure); get-or-create the entry; return the entry's data when nonempty;
otherwise fetch, check the status, and parse — and, exactly as in the
source, never write the parsed results back into the entry.  The final
`Bool` reports whether a network fetch occurred. -/
def cacheGet (cy : Int) (fetch : String → FetchResult) (c : CacheState)
    (list : MoverList) (d : Date) : CacheState × GetOutcome × Bool :=
  match dataURL cy list d with
  | .error e => (c, .ok [] (some (.invalidDate e)), false)
  | .ok addr =>
    let entry := List.lookup addr c
    let c1 := match entry with
      | some _ => c
      | none => (addr, []) :: c
    let cachedData := entry.getD []
    if cachedData.isEmpty then
      match fetch addr with
      | .netErr => (c1, .ok [] (some .network), true)
      | .resp status body =>
        if status ≠ 200 then (c1, .ok [] (some (.badStatus status)), true)
        else
          match parseTable body with
          | .panicked => (c1, .panicked, true)
          | .result stocks e => (c1, .ok stocks (e.map .row), true)
    else (c1, .ok cachedData none, false)

/-! ## Concrete documents used in the theorems -/

/-- A `td` cell holding one text node. -/
def tdText (s : String) : Node := .elem "td" [] (.cons (.text s) .nil)

/-- A `tr` row with six text cells. -/
def tr6 (a b c d e f : String) : Node :=
  .elem "tr" [] (NodeList.ofList [tdText a, tdText b, tdText c, tdText d, tdText e, tdText f])

/-- A document whose body holds one `table.mdcTable` with the given rows
inside a `tbody`. -/
def tableDoc (rows : List Node) : Node :=
  .elem "html" []
    (.cons
      (.elem "body" []
        (.cons
          (.elem "table" ["mdcTable"]
            (.cons (.elem "tbody" [] (NodeList.ofList rows)) .nil))
          .nil))
      .nil)

/-- The header row of the WSJ table (its content is irrelevant: the parser
drops the first selected row unconditionally). -/
def headerRow : Node := tr6 "No." "Issue (Sym)" "Price" "Chg" "% Chg" "Volume"

/-- The data row of the specification's parsing example. -/
def acmeRow : Node := tr6 "1" "Acme Corp (ACME)" "$12.34" "x" "+5.67%" "1,234"

/-- Document with the header row plus the `Acme Corp (ACME)` data row. -/
def acmeDoc : Node := tableDoc [headerRow, acmeRow]

/-- The record the specification expects from `acmeRow` (price 12.34,
percent change 5.67 as exact rationals). -/
def acmeStock : Stock := ⟨"ACME", "Acme Corp", mkRat 1234 100, mkRat 567 100, 1234⟩

/-- A data row with only five cells. -/
def shortRow : Node :=
  .elem "tr" []
    (NodeList.ofList [tdText "2", tdText "Beta Inc (BETA)", tdText "$1.00",
      tdText "x", tdText "+1.00%"])

/-- Document whose third row has five cells (after a header row and one
well-formed data row). -/
def shortRowDoc : Node := tableDoc [headerRow, acmeRow, shortRow]

/-- A data row carrying a negative price and a negative volume. -/
def negRow : Node := tr6 "2" "Neg Corp (NEG)" "-12.34" "x" "5.67" "-1,234"

/-- Document with the header row plus the negative-valued data row. -/
def negDoc : Node := tableDoc [headerRow, negRow]

/-- The record `negRow` parses to (price −12.34, volume −1234). -/
def negStock : Stock := ⟨"NEG", "Neg Corp", mkRat (-1234) 100, mkRat 567 100, -1234⟩

/-- A document containing no `table.mdcTable` marker at all. -/
def noTableDoc : Node :=
  .elem "html" []
    (.cons (.elem "body" [] (.cons (.elem "p" [] (.cons (.text "hello") .nil)) .nil)) .nil)

/-- The fetch oracle delivering the Acme document with status 200. -/
def acmeFetch : String → FetchResult := fun _ => .resp 200 acmeDoc

end Movers

namespace Movers

/-! ## Supporting lemmas -/

/-- Calibration: 2021-01-01 is a Friday in Go's weekday numbering. -/
example : goWeekday ⟨2021, 1, 1⟩ = 5 := by decide

/-- Calibration: 2021-03-15 is a Monday. -/
example : goWeekday ⟨2021, 3, 15⟩ = 1 := by decide

/-- No Gregorian month has more than 31 days. -/
theorem daysInMonth_le (y m : Int) : daysInMonth y m ≤ 31 := by
  unfold daysInMonth
  split <;> split <;> omega

/-- A row with a cell count other than 6 fails immediately with the
column-count error (the count is the first thing `trToStock` checks). -/
theorem trToStock_count : ∀ (data : List String), data.length ≠ 6 →
    trToStock data = .error (.columnCount data.length)
  | [], _ => rfl
  | [_], _ => rfl
  | [_, _], _ => rfl
  | [_, _, _], _ => rfl
  | [_, _, _, _], _ => rfl
  | [_, _, _, _, _], _ => rfl
  | [_, _, _, _, _, _], h => absurd rfl h
  | _ :: _ :: _ :: _ :: _ :: _ :: _ :: _, _ => rfl

/-- Running the row loop over well-formed rows followed by a row of a
wrong cell count: the loop keeps the stocks of the leading rows and stops
with the column-count error. -/
theorem parseRows_break (bad : List String) (hbad : bad.length ≠ 6)
    (pre post : List (List String))
    (hpre : ∀ r ∈ pre, ∃ s, trToStock r = .ok s) :
    (parseRows (pre ++ bad :: post)).2 = some (.columnCount bad.length) ∧
    (parseRows (pre ++ bad :: post)).1.length = pre.length := by
  induction pre with
  | nil =>
    simp [parseRows, trToStock_count bad hbad]
  | cons r rs ih =>
    obtain ⟨s, hs⟩ := hpre r (by simp)
    have ih2 := ih (fun x hx => hpre x (by simp [hx]))
    have hstep : parseRows ((r :: rs) ++ bad :: post) =
        (s :: (parseRows (rs ++ bad :: post)).1, (parseRows (rs ++ bad :: post)).2) := by
      simp [parseRows, hs]
    rw [hstep]
    exact ⟨ih2.1, by simp [ih2.2]⟩

/-- Every stock produced by the row loop comes from some row of the
input. -/
theorem parseRows_mem (rs : List (List String)) (s : Stock)
    (hs : s ∈ (parseRows rs).1) : ∃ r ∈ rs, trToStock r = .ok s := by
  induction rs with
  | nil => simp [parseRows] at hs
  | cons r rest ih =>
    cases htr : trToStock r with
    | error e =>
      rw [show parseRows (r :: rest) = ([], some e) by simp [parseRows, htr]] at hs
      simp at hs
    | ok s0 =>
      rw [show parseRows (r :: rest) = (s0 :: (parseRows rest).1, (parseRows rest).2) by
        simp [parseRows, htr]] at hs
      rcases List.mem_cons.mp hs with h | h
      · exact ⟨r, by simp, by rw [htr, h]⟩
      · obtain ⟨r2, hr2, htr2⟩ := ih h
        exact ⟨r2, by simp [hr2], htr2⟩

/-- The unsigned decimal parser only returns non-negative values. -/
theorem parseUnsignedDec_nonneg (s : List Char) (q : ℚ)
    (h : parseUnsignedDec s = some q) : 0 ≤ q := by
  simp only [parseUnsignedDec] at h
  split at h
  · split at h
    · simp at h
    · obtain rfl : _ = q := Option.some.inj h
      apply Rat.mkRat_nonneg
      positivity
  · split at h
    · simp at h
    · obtain rfl : _ = q := Option.some.inj h
      apply Rat.mkRat_nonneg
      positivity
  · simp at h

/-- `ParseFloat` on a string without a minus sign never returns a
negative value. -/
theorem goParseFloat_nonneg (str : String) (q : ℚ)
    (hm : '-' ∉ str.toList) (h : goParseFloat str = some q) : 0 ≤ q := by
  unfold goParseFloat at h
  split at h
  · next rest heq => exact absurd (heq ▸ List.mem_cons_self _ _) hm
  · next rest heq => exact parseUnsignedDec_nonneg _ _ h
  · exact parseUnsignedDec_nonneg _ _ h

/-- The unsigned branch of `Atoi` (digit run plus positive range check)
never returns a negative value. -/
theorem goAtoiPos_nonneg (cs : List Char) (v : Int)
    (h : (goAtoiMag cs).bind
      (fun n => if n ≤ 2 ^ 63 - 1 then some (n : Int) else none) = some v) :
    0 ≤ v := by
  cases hmag : goAtoiMag cs with
  | none => rw [hmag] at h; simp at h
  | some n =>
    rw [hmag] at h
    simp only [Option.some_bind] at h
    split at h
    · obtain rfl : _ = v := Option.some.inj h
      positivity
    · simp at h

/-- `Atoi` on a string without a minus sign never returns a negative
value. -/
theorem goAtoi_nonneg (str : String) (v : Int)
    (hm : '-' ∉ str.toList) (h : goAtoi str = some v) : 0 ≤ v := by
  unfold goAtoi at h
  split at h
  · next rest heq => exact absurd (heq ▸ List.mem_cons_self _ _) hm
  · exact goAtoiPos_nonneg _ _ h
  · exact goAtoiPos_nonneg _ _ h

/-- `trToStock` on a literal six-cell row, with the outer match
reduced. -/
theorem trToStock_six (c0 c1 c2 c3 c4 c5 : String) :
    trToStock [c0, c1, c2, c3, c4, c5] =
      (match nameAndSymbolPattern c1 with
      | none => .error .nameTicker
      | some (nm, tk) =>
        match goAtoi c5 with
        | none => .error .numVolume
        | some vol =>
          match goParseFloat c2 with
          | none => .error .numPrice
          | some pr =>
            match goParseFloat c4 with
            | none => .error .numPct
            | some pc => .ok ⟨tk, nm, pr, pc, vol⟩) := rfl

/-- A successful `trToStock` forces the row to have exactly six cells,
with the price read by `ParseFloat` from cell 2 and the volume by `Atoi`
from cell 5. -/
theorem trToStock_ok_shape (data : List String) (s : Stock)
    (h : trToStock data = .ok s) :
    ∃ c0 c1 c2 c3 c4 c5, data = [c0, c1, c2, c3, c4, c5] ∧
      goParseFloat c2 = some s.price ∧ goAtoi c5 = some s.volume := by
  by_cases hl : data.length = 6
  · obtain ⟨a, b, c, d, e, f, rfl⟩ : ∃ a b c d e f, data = [a, b, c, d, e, f] := by
      cases data with
      | nil => simp at hl
      | cons x0 t0 =>
      cases t0 with
      | nil => simp at hl
      | cons x1 t1 =>
      cases t1 with
      | nil => simp at hl
      | cons x2 t2 =>
      cases t2 with
      | nil => simp at hl
      | cons x3 t3 =>
      cases t3 with
      | nil => simp at hl
      | cons x4 t4 =>
      cases t4 with
      | nil => simp at hl
      | cons x5 t5 =>
      cases t5 with
      | nil => exact ⟨x0, x1, x2, x3, x4, x5, rfl⟩
      | cons x6 t6 => simp at hl
    rw [trToStock_six] at h
    split at h
    · exact absurd h (by simp)
    · rename_i nm tk heqns
      split at h
      · exact absurd h (by simp)
      · rename_i vol hvol
        split at h
        · exact absurd h (by simp)
        · rename_i pr hpr
          split at h
          · exact absurd h (by simp)
          · rename_i pc hpc
            obtain rfl : Stock.mk tk nm pr pc vol = s := Except.ok.inj h
            exact ⟨a, b, c, d, e, f, rfl, hpr, hvol⟩
  · rw [trToStock_count data hl] at h
    simp at h

mutual
/-- Without the marker in the subtree and outside any marker, the
selector collects no row from a node. -/
theorem collectRows_nil (n : Node) (h : hasMarker n = false) :
    collectRows false false n = [] := by
  match n with
  | .text s => rfl
  | .elem tag classes cs =>
    unfold hasMarker at h
    rw [Bool.or_eq_false_iff] at h
    unfold collectRows
    rw [h.1]
    simp only [Bool.false_and, Bool.false_or, Bool.and_self,
      Bool.false_eq_true, if_false, List.nil_append]
    exact collectRowsL_nil cs h.2
/-- List version of `collectRows_nil`. -/
theorem collectRowsL_nil (l : NodeList) (h : hasMarkerL l = false) :
    collectRowsL false false l = [] := by
  match l with
  | .nil => rfl
  | .cons n rest =>
    unfold hasMarkerL at h
    rw [Bool.or_eq_false_iff] at h
    unfold collectRowsL
    rw [collectRows_nil n h.1, collectRowsL_nil rest h.2]
    rfl
end

/-- A document without the `table.mdcTable` marker yields an empty row
selection, so `parseTable` hits the panicking slice. -/
theorem parseTable_panic_of_no_marker (root : Node) (h : hasMarker root = false) :
    parseTable root = .panicked := by
  have hfr : findRows root = [] := collectRows_nil root h
  simp [parseTable, hfr]

end Movers

namespace Movers

/-! ## Claim theorems -/

/-- C7: `parse` on a document containing the marked table with a header
row plus the single data row whose six cells are `1`,
`Acme Corp (ACME)`, `$12.34`, `x`, `+5.67%`, `1,234` returns exactly one
record `{ticker := ACME, name := Acme Corp, price := 12.34,
pctChange := 5.67, volume := 1234}`. -/
theorem parseTable_acme :
    parseTable acmeDoc = .result [acmeStock] none := by decide

/-- C3 (counterexample): the non-existent calendar date 2021-02-30 is
*accepted* by `Date.Validate` (with current year 2025): `time.Date`
normalises it to Tuesday 2021-03-02 and no check compares the normalised
date with the input, so validation does not fail with InvalidDate as the
claim states. -/
theorem validate_accepts_feb30 :
    Date.Validate 2025 ⟨2021, 2, 30⟩ = none := by decide

/-- C3 (amended): a triple that does not reconstruct to the same calendar
date fails with InvalidDate (`invalid day`) only when its day component
lies outside `[1, 31]`; day values inside that range are silently
normalised and only the year and weekend checks apply. -/
theorem validate_invalidDay_only_day_range (cy y m d : Int)
    (hy : 2010 ≤ y) (hcy : y ≤ cy) (hd : d < 1 ∨ 31 < d) :
    Date.Validate cy ⟨y, m, d⟩ = some VErr.invalidDay := by
  unfold Date.Validate
  dsimp only
  rw [if_neg (by omega), if_pos (by omega)]

/-- Witness for `validate_invalidDay_only_day_range` at 2021-02-32. -/
theorem validate_invalidDay_witness :
    Date.Validate 2025 ⟨2021, 2, 32⟩ = some VErr.invalidDay :=
  validate_invalidDay_only_day_range 2025 2021 2 32 (by norm_num) (by norm_num)
    (by norm_num)

/-- C8: for every real Gregorian date with year in `[2010, cy]`,
validation succeeds returning the same components exactly when the
weekday is Monday–Friday, and fails with WeekendUnavailable when the
weekday is Saturday (6) or Sunday (0). -/
theorem validate_real_weekday (cy y m d : Int) (hy : 2010 ≤ y) (hcy : y ≤ cy)
    (hreal : isRealDate y m d) :
    (goWeekday ⟨y, m, d⟩ ≠ 0 ∧ goWeekday ⟨y, m, d⟩ ≠ 6 →
      NewDate cy y m d = .ok ⟨y, m, d⟩) ∧
    (goWeekday ⟨y, m, d⟩ = 0 ∨ goWeekday ⟨y, m, d⟩ = 6 →
      NewDate cy y m d = .error VErr.weekend) := by
  obtain ⟨hm1, hm2, hd1, hd2⟩ := hreal
  have h31 : d ≤ 31 := le_trans hd2 (daysInMonth_le y m)
  constructor
  · rintro ⟨h0, h6⟩
    have hval : Date.Validate cy ⟨y, m, d⟩ = none := by
      unfold Date.Validate
      dsimp only
      rw [if_neg (by omega), if_neg (by omega), if_neg (by tauto)]
    unfold NewDate
    rw [hval]
  · intro hw
    have hval : Date.Validate cy ⟨y, m, d⟩ = some VErr.weekend := by
      unfold Date.Validate
      dsimp only
      rw [if_neg (by omega), if_neg (by omega), if_pos (by tauto)]
    unfold NewDate
    rw [hval]

/-- Witness for `validate_real_weekday`: Monday 2021-03-15 validates and
is returned unchanged. -/
theorem validate_real_weekday_witness :
    NewDate 2025 2021 3 15 = .ok ⟨2021, 3, 15⟩ :=
  (validate_real_weekday 2025 2021 3 15 (by norm_num) (by norm_num)
    (by decide)).1 (by decide)

/-- C9: `dataURL` substitutes the year, the zero-padded month and the
zero-padded day into the list's template (concretely, Gainers at
2021-03-15 yields the Gainers template with `2021`, `03`, `15`
substituted), and on a date failing validation it returns the validation
error without producing any locator. -/
theorem dataURL_substitution :
    (dataURL 2025 .usCompositeGainers ⟨2021, 3, 15⟩ =
      .ok "http://www.wsj.com/mdc/public/page/2_3021-gaincomp-gainer-20210315.html?mod=mdc_pastcalendar") ∧
    (∀ cy list d e, Date.Validate cy d = some e → dataURL cy list d = .error e) ∧
    (∀ cy list d, Date.Validate cy d = none →
      dataURL cy list d =
        .ok (urlHead list ++ toString d.year ++ pad2 d.month ++ pad2 d.day ++ urlTail)) := by
  refine ⟨by decide, ?_, ?_⟩
  · intro cy list d e h
    unfold dataURL
    rw [h]
  · intro cy list d h
    unfold dataURL
    rw [h]

/-- Witness for `dataURL_substitution`: an invalid date (year 2009) makes
`dataURL` fail with the validation error. -/
theorem dataURL_substitution_witness :
    dataURL 2025 MoverList.usCompositeGainers ⟨2009, 1, 1⟩ =
      .error VErr.invalidYear :=
  dataURL_substitution.2.1 2025 MoverList.usCompositeGainers ⟨2009, 1, 1⟩
    VErr.invalidYear (by decide)

/-- C10: for every list and every date failing validation, `cache.Get`
returns the validation error with the cache map unchanged — no entry is
created and no fetch or parse is attempted. -/
theorem cacheGet_invalid_date (cy : Int) (fetch : String → FetchResult)
    (c : CacheState) (list : MoverList) (d : Date) (e : VErr)
    (h : Date.Validate cy d = some e) :
    cacheGet cy fetch c list d = (c, .ok [] (some (.invalidDate e)), false) := by
  unfold cacheGet dataURL
  rw [h]

/-- Witness for `cacheGet_invalid_date` at year 2009 on the empty
cache. -/
theorem cacheGet_invalid_date_witness :
    cacheGet 2025 (fun _ => .netErr) [] MoverList.usCompositeGainers ⟨2009, 1, 1⟩ =
      ([], .ok [] (some (.invalidDate VErr.invalidYear)), false) :=
  cacheGet_invalid_date 2025 (fun _ => .netErr) [] MoverList.usCompositeGainers
    ⟨2009, 1, 1⟩ VErr.invalidYear (by decide)

/-- C1 (refuting theorem): after a successful `cache.Get` the result is
*not* stored — the entry's data slice stays empty
(`first.1.map Prod.snd = [[]]`) because `Get` never assigns `val.data` —
and the very next `Get` for the same key performs another network fetch
(final flag `true` on both calls). -/
theorem cacheGet_never_stores :
    (cacheGet 2025 acmeFetch [] .usCompositeGainers ⟨2021, 3, 15⟩).2 =
      (.ok [acmeStock] none, true) ∧
    ((cacheGet 2025 acmeFetch [] .usCompositeGainers ⟨2021, 3, 15⟩).1).map Prod.snd =
      [[]] ∧
    (cacheGet 2025 acmeFetch
        (cacheGet 2025 acmeFetch [] .usCompositeGainers ⟨2021, 3, 15⟩).1
        .usCompositeGainers ⟨2021, 3, 15⟩).2 =
      (.ok [acmeStock] none, true) := by decide

/-- C2 (refuting theorem): two `cache.Get` calls for the same key — the
serialisation order the per-key entry lock imposes on two concurrent
callers — each perform their own network fetch (flag `true` twice), so N
concurrent callers produce N fetches, not at most one. -/
theorem cacheGet_refetches_same_key :
    ((cacheGet 2025 acmeFetch [] .usCompositeLosers ⟨2021, 3, 16⟩).2).2 = true ∧
    ((cacheGet 2025 acmeFetch
        (cacheGet 2025 acmeFetch [] .usCompositeLosers ⟨2021, 3, 16⟩).1
        .usCompositeLosers ⟨2021, 3, 16⟩).2).2 = true := by decide

/-- C5 (refuting theorem): on a document without the `table.mdcTable`
marker the parse does not fail with MalformedDocument — it crashes: the
empty selection makes `Slice(1, goquery.ToEnd)` take `s.Nodes[1:0]`, a
runtime panic. -/
theorem parseTable_missing_marker_panics :
    hasMarker noTableDoc = false ∧ parseTable noTableDoc = .panicked := by decide

/-- C4 (counterexample): a document whose third row has five cells parses
to the column-count error *together with* the stock of the preceding
well-formed row — the partial slice is returned alongside the error, so
the parse does not return "no partial sequence". -/
theorem parseTable_returns_partial :
    parseTable shortRowDoc = .result [acmeStock] (some (.columnCount 5)) ∧
    ([acmeStock] : List Stock) ≠ [] := by decide

/-- C4 (amended): if every row before some row parses successfully and
that row yields a cell count other than 6, the whole parse stops there
with ColumnCountMismatch — but the returned slice still carries the
stocks of the rows before the failing one (Go returns the pair
`(results, err)`); rows after the failing row are not processed. -/
theorem parseTable_columnCount (root : Node) (pre post : List (List String))
    (bad : List String) (hrows : findRows root ≠ [])
    (hsplit : ((findRows root).drop 1).map extractCells = pre ++ bad :: post)
    (hpre : ∀ r ∈ pre, ∃ s, trToStock r = .ok s)
    (hbad : bad.length ≠ 6) :
    ∃ stocks : List Stock,
      parseTable root = .result stocks (some (.columnCount bad.length)) ∧
      stocks.length = pre.length := by
  have hb := parseRows_break bad hbad pre post hpre
  refine ⟨(parseRows (pre ++ bad :: post)).1, ?_, hb.2⟩
  unfold parseTable
  cases hfr : findRows root with
  | nil => exact absurd hfr hrows
  | cons a as =>
    rw [hfr] at hsplit
    simp only [List.drop_succ_cons, List.drop_zero] at hsplit
    simp only [List.isEmpty_cons, List.drop_succ_cons, List.drop_zero,
      Bool.false_eq_true, if_false, hsplit, hb.1]

/-- Witness for `parseTable_columnCount` on the concrete five-cell-row
document. -/
theorem parseTable_columnCount_witness :
    ∃ stocks : List Stock,
      parseTable shortRowDoc =
        .result stocks (some (.columnCount (extractCells shortRow).length)) ∧
      stocks.length = 1 :=
  parseTable_columnCount shortRowDoc [extractCells acmeRow] [] (extractCells shortRow)
    (fun he => absurd (congrArg List.length he) (by decide))
    (by decide)
    (fun r hr => by
      rw [List.mem_singleton.mp hr]
      exact ⟨acmeStock, by decide⟩)
    (by decide)

/-- C6 (counterexample): a successful parse can contain a record with a
negative price and a negative volume — `Atoi` and `ParseFloat` accept a
leading minus sign, which `filterNonNumeric` deliberately keeps. -/
theorem parseTable_accepts_negative :
    parseTable negDoc = .result [negStock] none ∧
    negStock.price < 0 ∧ negStock.volume < 0 := by decide

/-- C6 (amended): every stock of a parsed document comes from a six-cell
row via `trToStock`, and its price (cell 2) and volume (cell 5) are
non-negative *provided* the corresponding normalised cell text contains
no minus sign; the parser itself enforces no sign restriction. -/
theorem parseTable_sign (root : Node) (l : List Stock) (e : Option RowErr)
    (hp : parseTable root = .result l e) (s : Stock) (hs : s ∈ l) :
    ∃ c0 c1 c2 c3 c4 c5 : String,
      [c0, c1, c2, c3, c4, c5] ∈ ((findRows root).drop 1).map extractCells ∧
      trToStock [c0, c1, c2, c3, c4, c5] = .ok s ∧
      ('-' ∉ c2.toList → 0 ≤ s.price) ∧
      ('-' ∉ c5.toList → 0 ≤ s.volume) := by
  simp only [parseTable] at hp
  split at hp
  · exact absurd hp (by simp)
  · have hl : (parseRows (((findRows root).drop 1).map extractCells)).1 = l :=
      (ParseOutcome.result.inj hp).1
    obtain ⟨r, hr, htr⟩ := parseRows_mem _ s (hl ▸ hs)
    obtain ⟨c0, c1, c2, c3, c4, c5, rfl, hpr, hvol⟩ := trToStock_ok_shape r s htr
    exact ⟨c0, c1, c2, c3, c4, c5, hr, htr,
      fun hm => goParseFloat_nonneg c2 s.price hm hpr,
      fun hm => goAtoi_nonneg c5 s.volume hm hvol⟩

/-- Witness for `parseTable_sign` on the Acme document and its single
parsed stock. -/
theorem parseTable_sign_witness :
    ∃ c0 c1 c2 c3 c4 c5 : String,
      [c0, c1, c2, c3, c4, c5] ∈ ((findRows acmeDoc).drop 1).map extractCells ∧
      trToStock [c0, c1, c2, c3, c4, c5] = .ok acmeStock ∧
      ('-' ∉ c2.toList → 0 ≤ acmeStock.price) ∧
      ('-' ∉ c5.toList → 0 ≤ acmeStock.volume) :=
  parseTable_sign acmeDoc [acmeStock] none (by decide) acmeStock (by decide)

end Movers
